import Mathlib

set_option maxRecDepth 100000

/-!
Formal model of the roulette simulator in `roulette.py`.

The Python source is shallowly embedded: classes become structures, mutating
methods become state-passing functions, Python exceptions become explicit
result values.  Machine arithmetic is on `Int`/`Nat` (Python integers are
unbounded, so no modular wrapping is needed).
-/

/-- An `Outcome` from `roulette.py`: a named bet target with payout odds.
`prison` is true for the `PrisonOutcome` subclass (data-identical, but
tagged to trigger the half-return rule in `Player.lose`).  Python equality
and hashing of outcomes is by `name` only, which the wheel/bin operations
below reproduce. -/
structure Outcome where
  name : String
  odds : Int
  prison : Bool
  deriving DecidableEq

/-- Insertion into a bin.  A Python `Bin` is a `frozenset` of outcomes whose
equality is by name, so inserting an outcome whose name is already present
keeps the existing member (the union `bin | {outcome}` keeps the left
operand's element). -/
def binInsert (b : List Outcome) (o : Outcome) : List Outcome :=
  if b.any (fun x => x.name == o.name) then b else b ++ [o]

/-- `Wheel` from `roulette.py`: 38 bins (index 37 is the "00" pocket) plus
the deduplicated registry `all_outcomes`.  The random generator is modelled
separately (see `SeededWheel`), since only `next` uses it. -/
structure Wheel where
  bins : List (List Outcome)
  all_outcomes : List Outcome
  deriving DecidableEq

/-- `Wheel.add_outcome`: registers the outcome in `all_outcomes` unless a
same-named outcome is already known (Python set membership dedupes by name),
and inserts it into the indexed bin. -/
def Wheel.add_outcome (w : Wheel) (idx : Nat) (o : Outcome) : Wheel :=
  { bins := w.bins.set idx (binInsert (w.bins.getD idx []) o)
    all_outcomes :=
      if w.all_outcomes.any (fun x => x.name == o.name) then w.all_outcomes
      else w.all_outcomes ++ [o] }

/-- `Wheel.get_outcome`: first registered outcome with the given name, or
`none` (Python returns `None`). -/
def Wheel.get_outcome (w : Wheel) (nm : String) : Option Outcome :=
  w.all_outcomes.find? (fun o => o.name == nm)

/-- `BinBuilder.add_straight_bets`: one 35:1 outcome per number 0-36, and a
"00" outcome at index 37. -/
def addStraightBets (w : Wheel) : Wheel :=
  let w := (List.range 37).foldl (fun w n => w.add_outcome n ⟨s!"{n}", 35, false⟩) w
  w.add_outcome 37 ⟨"00", 35, false⟩

/-- `BinBuilder.add_split_bets`: 17:1 outcomes for every left/right pair
(`n`,`n+1` for column-1 and column-2 members) and every top/down pair
(`n`,`n+3` for `n` in 1..33). -/
def addSplitBets (w : Wheel) : Wheel :=
  let w := (List.range 12).foldl (fun w r =>
    (List.range' 1 2).foldl (fun w i =>
      let n := 3 * r + i
      let o : Outcome := ⟨s!"{n}-{n+1}", 17, false⟩
      (w.add_outcome n o).add_outcome (n+1) o) w) w
  (List.range' 1 33).foldl (fun w n =>
    let o : Outcome := ⟨s!"{n}-{n+3}", 17, false⟩
    (w.add_outcome n o).add_outcome (n+3) o) w

/-- `BinBuilder.add_street_bets`: 11:1 outcome per row of three numbers. -/
def addStreetBets (w : Wheel) : Wheel :=
  (List.range 12).foldl (fun w r =>
    let n := 3 * r + 1
    let o : Outcome := ⟨s!"{n}-{n+1}-{n+2}", 11, false⟩
    (List.range 3).foldl (fun w i => w.add_outcome (n + i) o) w) w

/-- One 8:1 corner block `(idx, idx+1, idx+3, idx+4)`. -/
def addCornerBlock (w : Wheel) (idx : Nat) : Wheel :=
  let o : Outcome := ⟨s!"{idx}-{idx+1}-{idx+3}-{idx+4}", 8, false⟩
  [0, 1, 3, 4].foldl (fun w i => w.add_outcome (idx + i) o) w

/-- `BinBuilder.add_corner_bets`: two corner blocks per row boundary. -/
def addCornerBets (w : Wheel) : Wheel :=
  (List.range 11).foldl (fun w r =>
    addCornerBlock (addCornerBlock w (3 * r + 1)) (3 * r + 2)) w

/-- `BinBuilder.add_line_bets`: 5:1 outcome per pair of adjacent rows. -/
def addLineBets (w : Wheel) : Wheel :=
  (List.range 11).foldl (fun w r =>
    let n := 3 * r + 1
    let o : Outcome := ⟨s!"{n}-{n+1}-{n+2}-{n+3}-{n+4}-{n+5}", 5, false⟩
    (List.range 6).foldl (fun w i => w.add_outcome (n + i) o) w) w

/-- `BinBuilder.add_dozen_bets`: 2:1 outcome per 12-number range. -/
def addDozenBets (w : Wheel) : Wheel :=
  (List.range 3).foldl (fun w d =>
    let o : Outcome := ⟨s!"dozen({d+1})", 2, false⟩
    (List.range 12).foldl (fun w m => w.add_outcome (12 * d + m + 1) o) w) w

/-- `BinBuilder.add_column_bets`: 2:1 outcome per column. -/
def addColumnBets (w : Wheel) : Wheel :=
  (List.range 3).foldl (fun w c =>
    let o : Outcome := ⟨s!"column({c+1})", 2, false⟩
    (List.range 12).foldl (fun w r => w.add_outcome (3 * r + c + 1) o) w) w

/-- The red numbers from `BinBuilder.add_even_money_bets`. -/
def redBins : List Nat := [1, 3, 5, 7, 9, 12, 14, 16, 18, 19, 21, 23, 25, 27, 30, 32, 34, 36]

/-- `BinBuilder.add_even_money_bets`: for each number 1-36 add one of
low/high (low iff `n < 19`), one of even/odd, and one of red/black. -/
def addEvenMoneyBets (w : Wheel) : Wheel :=
  let red : Outcome := ⟨"red", 1, false⟩
  let black : Outcome := ⟨"black", 1, false⟩
  let even : Outcome := ⟨"even", 1, false⟩
  let odd : Outcome := ⟨"odd", 1, false⟩
  let high : Outcome := ⟨"high", 1, false⟩
  let low : Outcome := ⟨"low", 1, false⟩
  (List.range' 1 36).foldl (fun w n =>
    let w := if 1 ≤ n ∧ n < 19 then w.add_outcome n low else w.add_outcome n high
    let w := if n % 2 == 0 then w.add_outcome n even else w.add_outcome n odd
    if redBins.contains n then w.add_outcome n red else w.add_outcome n black) w

/-- `BinBuilder.add_five_bets`: the 6:1 "00-0-1-2-3" outcome on bins
0, 1, 2, 3 and 37. -/
def addFiveBets (w : Wheel) : Wheel :=
  let o : Outcome := ⟨"00-0-1-2-3", 6, false⟩
  ((List.range 4).foldl (fun w i => w.add_outcome i o) w).add_outcome 37 o

/-- `BinBuilder.build_bins`, in source order. -/
def buildBins (w : Wheel) : Wheel :=
  addFiveBets (addEvenMoneyBets (addColumnBets (addDozenBets (addLineBets
    (addCornerBets (addStreetBets (addSplitBets (addStraightBets w))))))))

/-- `EuroBinBuilder.add_straight_bets`: numbers 1-36 and "00" as plain
outcomes, and a `PrisonOutcome` "0" at bin 0. -/
def addEuroStraightBets (w : Wheel) : Wheel :=
  let w := (List.range' 1 36).foldl (fun w n => w.add_outcome n ⟨s!"{n}", 35, false⟩) w
  (w.add_outcome 37 ⟨"00", 35, false⟩).add_outcome 0 ⟨"0", 35, true⟩

/-- `EuroBinBuilder.add_four_bets`: the 6:1 "0-1-2-3" outcome on bins 0-3. -/
def addFourBets (w : Wheel) : Wheel :=
  let o : Outcome := ⟨"0-1-2-3", 6, false⟩
  (List.range 4).foldl (fun w i => w.add_outcome i o) w

/-- `EuroBinBuilder.build_bins`: the inherited build with the straight bets
overridden, the five-bet suppressed, and the four-bet appended. -/
def buildEuroBins (w : Wheel) : Wheel :=
  addFourBets (addEvenMoneyBets (addColumnBets (addDozenBets (addLineBets
    (addCornerBets (addStreetBets (addSplitBets (addEuroStraightBets w))))))))

/-- The freshly constructed wheel before any builder runs: 38 empty bins
and an empty outcome registry. -/
def emptyWheel : Wheel := ⟨List.replicate 38 [], []⟩

/-- `Wheel.__init__` bin population: `rules == "american"` selects
`BinBuilder`, `rules == "european"` selects `EuroBinBuilder`, anything else
leaves `bb = None` and the bins stay empty. -/
def mkWheel (rules : String) : Wheel :=
  if rules = "american" then buildBins emptyWheel
  else if rules = "european" then buildEuroBins emptyWheel
  else emptyWheel

/-- Membership of a named outcome in one bin (Python `in` on a `Bin`
frozenset compares by name). -/
def binHasName (b : List Outcome) (nm : String) : Bool :=
  b.any (fun o => o.name == nm)

/-- Exactly one of the two named outcomes is in the bin. -/
def exactlyOneOf (b : List Outcome) (n1 n2 : String) : Bool :=
  (binHasName b n1 && !binHasName b n2) || (!binHasName b n1 && binHasName b n2)

/-- The even-money partition property of a wheel: every bin 1-36 holds
exactly one of high/low, one of even/odd, one of red/black, and bins 0 and
37 hold none of the six. -/
def evenMoneyPartition (w : Wheel) : Bool :=
  ((List.range' 1 36).all fun n =>
    let b := w.bins.getD n []
    exactlyOneOf b "high" "low" && exactlyOneOf b "even" "odd" &&
      exactlyOneOf b "red" "black") &&
  ([0, 37].all fun n =>
    let b := w.bins.getD n []
    (["red", "black", "even", "odd", "high", "low"].all fun nm => !binHasName b nm))

/-- Truthiness of the optional `seed` argument of `Wheel.__init__`:
`if seed:` runs the seeding only for a non-`None`, nonzero seed. -/
def seedTruthy : Option Int → Bool
  | none => false
  | some z => decide (z ≠ 0)

/-- A wheel together with its random source, modelling `Wheel.__init__`
(`self.rng = random.Random(); if seed: self.rng.seed(seed)`) and
`Wheel.next` (`self.bins[self.rng.randint(0,37)]`).  The generator is
embedded as the stream of successive `randint(0, 37)` draws it will
produce: `mt seed` is the stream of the generator after `seed(seed)`
(a fixed deterministic function of the seed), while `entropy` is the
stream of an unseeded generator, which is initialised from operating
system entropy and is therefore an external input of the construction. -/
structure SeededWheel where
  wheel : Wheel
  stream : Nat → Nat

/-- Constructing a `Wheel(seed, rules)`: bins from the rule selector, and
the draw stream from `mt` exactly when the seed is truthy, otherwise from
the external entropy. -/
def mkSeededWheel (mt : Int → Nat → Nat) (entropy : Nat → Nat) (seed : Option Int)
    (rules : String) : SeededWheel :=
  { wheel := mkWheel rules
    stream := if seedTruthy seed then mt (seed.getD 0) else entropy }

/-- The winning bin returned by the `n`-th call of `Wheel.next`.
`randint(0,37)` always lies in `[0, 37]`; the `% 38` keeps the model total
on arbitrary stream values. -/
def SeededWheel.nextAt (w : SeededWheel) (n : Nat) : List Outcome :=
  w.wheel.bins.getD (w.stream n % 38) []

/-- `Bet` from `roulette.py`: an amount wagered on one outcome. -/
structure Bet where
  amount : Int
  outcome : Outcome
  deriving DecidableEq

/-- `Bet.win_amount`: `amount * odds`. -/
def Bet.win_amount (b : Bet) : Int := b.amount * b.outcome.odds

/-- `Table` from `roulette.py`: the wagering limit and the active bets.
The `wheel` reference is threaded separately where needed. -/
structure Table where
  limit : Int
  bets : List Bet
  deriving DecidableEq

/-- `Table.is_valid`: false exactly when the active amounts sum over the
limit. -/
def Table.is_valid (t : Table) : Bool :=
  if (t.bets.map (fun x => x.amount)).sum > t.limit then false else true

/-- Result of `Table.place_bet`: the table state after the call together
with whether `InvalidBet` was raised.  The state is reported even in the
raising case because the Python method mutates `self.bets` by `append`
before validating and does not remove the bet when it raises. -/
structure PlaceBetResult where
  table : Table
  raised : Bool
  deriving DecidableEq

/-- `Table.place_bet`: append the bet, then raise `InvalidBet` if the
table is no longer valid. -/
def Table.place_bet (t : Table) (b : Bet) : PlaceBetResult :=
  let t1 : Table := { t with bets := t.bets ++ [b] }
  if t1.is_valid then ⟨t1, false⟩ else ⟨t1, true⟩

/-- `Table.clear_bets`. -/
def Table.clear_bets (t : Table) : Table := { t with bets := [] }

/-- The value returned by the default `Player.win`: `bet.win_amount()`. -/
def Player.win_value (b : Bet) : Int := b.win_amount

/-- The value returned by the default `Player.lose`.  For a plain outcome
it returns `0`.  For a `PrisonOutcome` the source evaluates
`bet.lose_amount * 0.5` - `lose_amount` without the call parentheses is a
bound method object, so multiplying it by `0.5` raises `TypeError` instead
of returning half of `bet.lose_amount()`. -/
def Player.lose_value (b : Bet) : Except String Int :=
  if b.outcome.prison then Except.error "TypeError" else Except.ok 0

/-- The stake/rounds state of the abstract `Player` (both are `None`
until a session initialises them). -/
structure BaseState where
  stake : Option Int
  rounds : Option Int
  deriving DecidableEq

/-- The default `Player.playing`: false when stake or rounds is unset,
true exactly when both are positive. -/
def Player.playingB (rounds stake : Option Int) : Bool :=
  match rounds, stake with
  | some r, some k => decide (0 < r) && decide (0 < k)
  | _, _ => false

/-- The rounds update of `Player.winners`: `if self.rounds: self.rounds -= 1`
decrements only a truthy (set and nonzero) counter. -/
def Player.decRounds (rounds : Option Int) : Option Int :=
  match rounds with
  | some r => if r ≠ 0 then some (r - 1) else some r
  | none => none

/-- The default `Player.win` as a state transformer: the state is
untouched, only a value is returned. -/
def Player.win_state (s : BaseState) (b : Bet) : BaseState × Int :=
  (s, Player.win_value b)

/-- The default `Player.lose` as a state transformer: the state is
untouched, only a value (or the `TypeError`) is produced. -/
def Player.lose_state (s : BaseState) (b : Bet) : BaseState × Except String Int :=
  (s, Player.lose_value b)

/-- The state of a `Martingale` player: the inherited stake/rounds and the
losing-streak counter `multiplier`.  The constant `self.black` outcome is
threaded as a parameter of the methods. -/
structure MState where
  stake : Option Int
  rounds : Option Int
  multiplier : Nat
  deriving DecidableEq

/-- The bet-sizing arithmetic of `Martingale.place_bets`:
`amount = 2**multiplier`, clamped first by the table limit and then by the
remaining stake. -/
def Martingale.bet_amount (multiplier : Nat) (limit stake : Int) : Int :=
  let amount := (2 : Int) ^ multiplier
  let amount := if amount > limit then limit else amount
  if amount > stake then stake else amount

/-- `Martingale.place_bets`: deduct the clamped amount from the stake and
place the bet on black.  The `none` branch is unreachable during play
(`place_bets` is only invoked when `playing` holds, which requires the
stake to be set); Python would raise `TypeError` comparing `None`. -/
def Martingale.place_bets (black : Outcome) (s : MState) (t : Table) :
    MState × PlaceBetResult :=
  match s.stake with
  | none => (s, ⟨t, false⟩)
  | some k =>
    let amount := Martingale.bet_amount s.multiplier t.limit k
    ({ s with stake := some (k - amount) }, t.place_bet ⟨amount, black⟩)

/-- `Martingale.win`: reset the losing streak, credit `bet.amount` back to
the stake, and return the inherited win value. -/
def Martingale.win (s : MState) (b : Bet) : MState × Int :=
  ({ s with multiplier := 0, stake := s.stake.map (fun k => k + b.amount) },
    Player.win_value b)

/-- `Martingale.lose`: bump the losing streak, then return the inherited
lose value. -/
def Martingale.lose (s : MState) (b : Bet) : MState × Except String Int :=
  ({ s with multiplier := s.multiplier + 1 }, Player.lose_value b)

/-- The state of a `SevenReds` player: the inherited Martingale state plus
the consecutive-red counter. -/
structure SState where
  toM : MState
  red_count : Nat
  deriving DecidableEq

/-- `SevenReds.place_bets`: delegate to the Martingale sizing only once
`red_count - 7 >= 0`, otherwise place nothing. -/
def SevenReds.place_bets (black : Outcome) (s : SState) (t : Table) :
    SState × PlaceBetResult :=
  if (s.red_count : Int) - 7 ≥ 0 then
    let p := Martingale.place_bets black s.toM t
    ({ s with toM := p.1 }, p.2)
  else (s, ⟨t, false⟩)

/-- `SevenReds.winners`: the inherited rounds decrement, then extend or
reset the red streak according to whether "red" is in the winning bin. -/
def SevenReds.winners (red : Outcome) (s : SState) (w : List Outcome) : SState :=
  let s := { s with toM := { s.toM with rounds := Player.decRounds s.toM.rounds } }
  if w.any (fun o => o.name == red.name) then { s with red_count := s.red_count + 1 }
  else { s with red_count := 0 }

/-- The capability set of a `Player` seen by `Game` and `Simulator`:
`playing`, `place_bets`, `winners`, `win`, `lose`, plus the `stake`
attribute read by `Simulator.session`.  `win` returns the credited value;
`lose` may raise (`Except.error`), as the default does on prison
outcomes. -/
structure PlayerOps (σ : Type) where
  playing : σ → Bool
  place_bets : σ → Table → σ × PlaceBetResult
  winners : σ → List Outcome → σ
  win : σ → Bet → σ × Int
  lose : σ → Bet → σ × Except String Int
  stake : σ → Int

/-- The bet-resolution loop of `Game.cycle`: for each bet on the table
call `win` when its outcome is in the winning bin (membership by name)
and `lose` otherwise, collecting the returned values.  A raise inside
`lose` aborts the loop. -/
def resolveBets (P : PlayerOps σ) (winning : List Outcome) :
    List Bet → σ → Except String (σ × List Int)
  | [], s => Except.ok (s, [])
  | b :: rest, s =>
    if winning.any (fun o => o.name == b.outcome.name) then
      let p := P.win s b
      (resolveBets P winning rest p.1).map (fun q => (q.1, p.2 :: q.2))
    else
      let p := P.lose s b
      match p.2 with
      | Except.error e => Except.error e
      | Except.ok v => (resolveBets P winning rest p.1).map (fun q => (q.1, v :: q.2))

/-- `Game.cycle`: ask the player to bet when it is playing (a raised
`InvalidBet` propagates), draw the winning bin (`draw` is the wheel's
`randint(0,37)` value for this round), notify the player, resolve every
bet on the table, clear the table, and return the summed values and the
bet count. -/
def cycleG (P : PlayerOps σ) (bins : List (List Outcome)) (draw : Nat)
    (s : σ) (t : Table) : Except String (σ × Table × Int × Nat) :=
  let pr := if P.playing s then P.place_bets s t else (s, ⟨t, false⟩)
  if pr.2.raised then Except.error "InvalidBet"
  else
    let t1 := pr.2.table
    let winning := bins.getD (draw % 38) []
    let s2 := P.winners pr.1 winning
    match resolveBets P winning t1.bets s2 with
    | Except.error e => Except.error e
    | Except.ok (s3, vs) => Except.ok (s3, t1.clear_bets, vs.sum, vs.length)

/-- Result of a fueled run of the `Simulator.session` while-loop:
`ok duration stakes t next` is normal completion (with the final table
state and the next draw index), `err` is an exception escaping the loop,
`fuelOut` means the loop was still running after `fuel` iterations. -/
inductive SessRes (σ : Type) where
  | ok (duration : Nat) (stakes : List Int) (t : Table) (next : Nat)
  | err
  | fuelOut

/-- The `while self.player.playing()` loop of `Simulator.session`:
each iteration runs one `Game.cycle` (its returned values are discarded),
appends the player's stake to the history actually, and counts the round. -/
def sessionLoop (P : PlayerOps σ) (bins : List (List Outcome)) (stream : Nat → Nat) :
    Nat → σ → Table → Nat → List Int → Nat → SessRes σ
  | 0, s, t, i, stakes, dur =>
    if P.playing s then SessRes.fuelOut else SessRes.ok dur stakes t i
  | fuel + 1, s, t, i, stakes, dur =>
    if P.playing s then
      match cycleG P bins (stream i) s t with
      | Except.error _ => SessRes.err
      | Except.ok (s1, t1, _, _) =>
        sessionLoop P bins stream fuel s1 t1 (i + 1) (stakes ++ [P.stake s1]) (dur + 1)
    else SessRes.ok dur stakes t i

/-- `Simulator.session` from a freshly initialised player state `s0`:
the stake history starts with the initial stake, duration starts at 0. -/
def sessionG (P : PlayerOps σ) (bins : List (List Outcome)) (stream : Nat → Nat)
    (s0 : σ) (t : Table) (i : Nat) (fuel : Nat) : SessRes σ :=
  sessionLoop P bins stream fuel s0 t i [P.stake s0] 0

/-- Python `max` over the nonempty stake history recorded by a session. -/
def listMax : List Int → Int
  | [] => 0
  | x :: xs => xs.foldl max x

/-- The loop of `Simulator.gather`: run `session` repeatedly, appending
each session's duration to `durations` and its maximum stake to `maxima`.
Each session restarts from the re-initialised player state `s0`
(`session` re-runs `__init__` and sets rounds/stake), while the table and
the wheel's draw stream persist across sessions.  The fuel 251 covers the
default 250-round cap; a session that is still running after 251
iterations, or aborts on an exception, yields `none`. -/
def gatherLoop (P : PlayerOps σ) (bins : List (List Outcome)) (stream : Nat → Nat)
    (s0 : σ) : Nat → Table → Nat → List Nat → List Int →
    Option (List Nat × List Int)
  | 0, _, _, ds, ms => some (ds, ms)
  | k + 1, t, i, ds, ms =>
    match sessionG P bins stream s0 t i 251 with
    | SessRes.ok dur stakes t1 i1 =>
      gatherLoop P bins stream s0 k t1 i1 (ds ++ [dur]) (ms ++ [listMax stakes])
    | _ => none

/-- `Simulator.gather` with `samples` sessions, starting from an empty
statistics state. -/
def gatherG (P : PlayerOps σ) (bins : List (List Outcome)) (stream : Nat → Nat)
    (s0 : σ) (samples : Nat) (t : Table) : Option (List Nat × List Int) :=
  gatherLoop P bins stream s0 samples t 0 [] []

/-- The "black" outcome registered by the even-money builder; this is what
`wheel.get_outcome("black")` returns on a built wheel. -/
def blackOutcome : Outcome := ⟨"black", 1, false⟩

/-- `Passenger57` as `PlayerOps`: always playing, bets a fixed 10 on
black, inherits `winners`, `win` and `lose` from `Player`. -/
def p57Ops : PlayerOps BaseState :=
  { playing := fun _ => true
    place_bets := fun s t => (s, t.place_bet ⟨10, blackOutcome⟩)
    winners := fun s _ => { s with rounds := Player.decRounds s.rounds }
    win := fun s b => (s, Player.win_value b)
    lose := fun s b => (s, Player.lose_value b)
    stake := fun s => s.stake.getD 0 }

/-- `Martingale` as `PlayerOps`: inherited `playing` and `winners`, its own
`place_bets`, `win` and `lose`. -/
def martOps : PlayerOps MState :=
  { playing := fun s => Player.playingB s.rounds s.stake
    place_bets := Martingale.place_bets blackOutcome
    winners := fun s _ => { s with rounds := Player.decRounds s.rounds }
    win := Martingale.win
    lose := Martingale.lose
    stake := fun s => s.stake.getD 0 }

/-- The bins of the default wheel, as drawn from by `Game.cycle`. -/
def aBins : List (List Outcome) := (mkWheel "american").bins

/-- The player state at the start of every simulated session under the
default configuration: stake 100, 250 rounds, fresh streak counter. -/
def mart0 : MState := ⟨some 100, some 250, 0⟩

/-- `Passenger57`'s state after `session`'s initialisation under the
default configuration. -/
def base0 : BaseState := ⟨some 100, some 250⟩

/-- A wheel all 38 of whose bins are populated. -/
def fullyPopulated (w : Wheel) : Bool :=
  (w.bins.length == 38) && w.bins.all (fun b => !b.isEmpty)

/-- The distinguishing shape of the alternate ("european") wheel: fully
populated, a prison-tagged "0" straight outcome in bin 0, the four-bet
"0-1-2-3" in bin 0, and no five-bet "00-0-1-2-3" anywhere. -/
def alternateWheelCheck (w : Wheel) : Bool :=
  fullyPopulated w &&
  (w.bins.getD 0 []).any (fun o => o.name == "0" && o.prison) &&
  binHasName (w.bins.getD 0 []) "0-1-2-3" &&
  w.bins.all (fun b => !binHasName b "00-0-1-2-3")

/-- A deterministic stand-in stream family for the seeded generator. -/
def c8mt : Int → Nat → Nat := fun _ _ => 0

/-- One possible entropy stream of an unseeded generator. -/
def c8entropyA : Nat → Nat := fun _ => 0

/-- Another possible entropy stream of an unseeded generator. -/
def c8entropyB : Nat → Nat := fun _ => 1

/-- A table at its limit: limit 100 with 90 already wagered. -/
def c2Table : Table := ⟨100, [⟨90, blackOutcome⟩]⟩

/-- A bet that pushes the total to 101, over the limit. -/
def c2Bet : Bet := ⟨11, ⟨"red", 1, false⟩⟩

/-- The prison-tagged zero outcome from the alternate wheel. -/
def prisonZero : Outcome := ⟨"0", 35, true⟩

/-- One losing round of a Martingale player at a fresh table with the
given limit: the sized bet is placed (deducting the stake) and loses. -/
def martLossRound (limit : Int) (s : MState) : MState :=
  let p := Martingale.place_bets blackOutcome s ⟨limit, []⟩
  match p.2.table.bets with
  | [b] => (Martingale.lose p.1 b).1
  | _ => p.1

/-- The amount of the bet the Martingale player places in its fourth
round after three consecutive losing rounds from stake 1000 at table
limit 500. -/
def fourthBetAmount : Int :=
  let s := martLossRound 500 (martLossRound 500 (martLossRound 500 ⟨some 1000, some 250, 0⟩))
  match (Martingale.place_bets blackOutcome s ⟨500, []⟩).2.table.bets with
  | [b] => b.amount
  | _ => 0

def p57SessionNeverEnds : Prop :=
  ∀ fuel : Nat, sessionG p57Ops aBins (fun _ => 0) base0 ⟨1000, []⟩ 0 fuel = SessRes.fuelOut

def exceptIsOk : Except String Int → Bool
  | Except.ok _ => true
  | Except.error _ => false

def resolveShape (e : Except String (σ × List Int)) : Option σ :=
  match e with
  | Except.ok p => some p.1
  | Except.error _ => none

def cycleShape (e : Except String (σ × Table × Int × Nat)) : Option (σ × Table) :=
  match e with
  | Except.ok p => some (p.1, p.2.1)
  | Except.error _ => none

/-- A Martingale variant whose `win` returns a different value but has the
same state effect. -/
def martOpsShifted : PlayerOps MState :=
  { martOps with win := fun s b => ((Martingale.win s b).1, (Martingale.win s b).2 + 1) }

/-- C7: on the default-rule wheel, every bin with index 1 through 36
contains exactly one of the high/low outcomes, exactly one of the
even/odd outcomes and exactly one of the red/black outcomes, while bins 0
and 37 contain none of the six even-money outcomes. -/
theorem evenMoney_partition_default : evenMoneyPartition (mkWheel "american") = true := by
  decide

/-- Sanity: `blackOutcome` is exactly the black outcome the even-money
builder put on the default wheel (bin 2 is black), so it is the outcome
`wheel.get_outcome("black")` hands to the Martingale constructor. -/
theorem blackOutcome_on_wheel :
    ((mkWheel "american").bins.getD 2 []).contains blackOutcome = true := by
  decide

/-- C5 counterexample: the rule selectors in the source are "american" and
"european", so the selectors "default" and "prison" named by the claim are
unrecognized and produce wheels whose 38 bins are all empty, not populated
wheels. -/
theorem wheel_default_selector_empty :
    (mkWheel "default").bins.all List.isEmpty = true ∧
    fullyPopulated (mkWheel "default") = false ∧
    (mkWheel "prison").bins.all List.isEmpty = true ∧
    fullyPopulated (mkWheel "prison") = false := by
  decide

/-- C5 amended: selector "american" yields the fully populated default
wheel and "european" the alternate wheel, while every other selector
yields a wheel with 38 empty bins and an empty outcome registry. -/
theorem wheel_rule_selector_behaviour :
    fullyPopulated (mkWheel "american") = true ∧
    alternateWheelCheck (mkWheel "european") = true ∧
    ∀ rules : String, rules ≠ "american" → rules ≠ "european" →
      (mkWheel rules).bins = List.replicate 38 [] ∧ (mkWheel rules).all_outcomes = [] := by
  refine ⟨by decide, by decide, ?_⟩
  intro rules h1 h2
  rw [mkWheel, if_neg h1, if_neg h2]
  exact ⟨rfl, rfl⟩

/-- C5 witness: the amended theorem applied to the concrete unrecognized
selector "default". -/
theorem wheel_rule_selector_behaviour_witness :
    (mkWheel "default").bins = List.replicate 38 [] ∧ (mkWheel "default").all_outcomes = [] :=
  wheel_rule_selector_behaviour.2.2 "default" (by decide) (by decide)

/-- C8 counterexample: with seed 0 the construction skips seeding
(`if seed:` is false for 0), so the draw stream comes from operating
system entropy, and two wheels built with the same seed 0 and the same
rules can already differ at the first winning bin. -/
theorem seed_zero_not_deterministic :
    (mkSeededWheel c8mt c8entropyA (some 0) "american").nextAt 0 ≠
      (mkSeededWheel c8mt c8entropyB (some 0) "american").nextAt 0 := by
  decide

/-- C8 amended: for every seed that is truthy (non-`None` and nonzero),
two wheels constructed with that same seed and the same rule variant
produce identical winning-bin sequences, independently of entropy. -/
theorem seeded_wheel_deterministic (mt : Int → Nat → Nat) (e1 e2 : Nat → Nat)
    (seed : Option Int) (rules : String) (n : Nat) (h : seedTruthy seed = true) :
    (mkSeededWheel mt e1 seed rules).nextAt n =
      (mkSeededWheel mt e2 seed rules).nextAt n := by
  simp [mkSeededWheel, SeededWheel.nextAt, h]

/-- C8 witness: determinism at the concrete seed 42. -/
theorem seeded_wheel_deterministic_witness :
    seedTruthy (some 42) = true ∧
    (mkSeededWheel c8mt c8entropyA (some 42) "american").nextAt 0 =
      (mkSeededWheel c8mt c8entropyB (some 42) "american").nextAt 0 :=
  ⟨by decide, seeded_wheel_deterministic c8mt c8entropyA c8entropyB (some 42) "american" 0 (by decide)⟩

/-- C2 counterexample: `place_bet` raises `InvalidBet` on the over-limit
bet but does not roll back - the offending bet stays in the active list
and the sum of active amounts exceeds the limit after the raising call. -/
theorem place_bet_no_rollback :
    (c2Table.place_bet c2Bet).raised = true ∧
    (c2Table.place_bet c2Bet).table.bets ≠ c2Table.bets ∧
    ((c2Table.place_bet c2Bet).table.bets.map (fun b => b.amount)).sum >
      (c2Table.place_bet c2Bet).table.limit := by
  decide

/-- C2 amended: `place_bet` always appends the bet, and raises
`InvalidBet` exactly when the appended total exceeds the limit; there is
no rollback, so the invariant "sum of active amounts is at most the
limit" holds after exactly the non-raising calls. -/
theorem place_bet_appends_and_raises (t : Table) (b : Bet) :
    (t.place_bet b).table.bets = t.bets ++ [b] ∧
    ((t.place_bet b).raised = true ↔
      ((t.bets ++ [b]).map (fun x => x.amount)).sum > t.limit) := by
  unfold Table.place_bet Table.is_valid
  dsimp only
  split_ifs with hc <;> refine ⟨rfl, ?_⟩ <;> simp_all

/-- C3: the default `Player.win` returns `amount * odds`; the default
`Player.lose` returns 0 on a plain outcome, but on a `PrisonOutcome` it
raises `TypeError` (the source multiplies the uncalled bound method
`bet.lose_amount` by `0.5`) instead of returning half the win amount. -/
theorem lose_prison_type_error :
    Player.win_value ⟨10, blackOutcome⟩ = 10 ∧
    Player.lose_value ⟨10, blackOutcome⟩ = Except.ok 0 ∧
    Player.win_value ⟨10, prisonZero⟩ = 350 ∧
    Player.lose_value ⟨10, prisonZero⟩ = Except.error "TypeError" :=
  ⟨rfl, rfl, rfl, rfl⟩

/-- C4: on a win of one of its own bets (always on black, odds 1) the
Martingale player resets the losing streak to 0 and credits the win
amount back to its stake; on a loss it increments the losing streak. -/
theorem martingale_win_lose (s : MState) (b : Bet) (k : Int)
    (hodds : b.outcome.odds = 1) (hstake : s.stake = some k) :
    (Martingale.win s b).1.multiplier = 0 ∧
    (Martingale.win s b).1.stake = some (k + Player.win_value b) ∧
    (Martingale.lose s b).1.multiplier = s.multiplier + 1 := by
  refine ⟨rfl, ?_, rfl⟩
  simp [Martingale.win, hstake, Player.win_value, Bet.win_amount, hodds]

/-- C4 witness: the Martingale win/lose bookkeeping at a concrete state
and bet. -/
theorem martingale_win_lose_witness :
    (Martingale.win ⟨some 100, some 250, 3⟩ ⟨10, blackOutcome⟩).1.multiplier = 0 ∧
    (Martingale.win ⟨some 100, some 250, 3⟩ ⟨10, blackOutcome⟩).1.stake =
      some (100 + Player.win_value ⟨10, blackOutcome⟩) ∧
    (Martingale.lose ⟨some 100, some 250, 3⟩ ⟨10, blackOutcome⟩).1.multiplier = 3 + 1 :=
  martingale_win_lose ⟨some 100, some 250, 3⟩ ⟨10, blackOutcome⟩ 100 rfl rfl

/-- The sequential clamping in `Martingale.place_bets` is the minimum of
the doubling amount, the table limit and the remaining stake. -/
lemma bet_amount_eq_min (m : Nat) (limit stake : Int) :
    Martingale.bet_amount m limit stake = min ((2 : Int) ^ m) (min limit stake) := by
  unfold Martingale.bet_amount
  generalize (2 : Int) ^ m = a
  simp only [gt_iff_lt, min_def]
  split_ifs <;> omega

/-- The placed amount never exceeds the table limit. -/
lemma bet_amount_le_limit (m : Nat) (limit stake : Int) :
    Martingale.bet_amount m limit stake ≤ limit := by
  rw [bet_amount_eq_min]
  exact le_trans (min_le_right _ _) (min_le_left _ _)

/-- C6: the Martingale bet amount is `min(2^losingStreak, limit, stake)`;
in particular, with table limit 500 and three consecutive losses from
stake 1000, the fourth bet amount is 8. -/
theorem martingale_bet_sizing :
    (∀ (m : Nat) (limit stake : Int),
      Martingale.bet_amount m limit stake = min ((2 : Int) ^ m) (min limit stake)) ∧
    fourthBetAmount = 8 :=
  ⟨bet_amount_eq_min, by decide⟩

/-- A Martingale `place_bets` on a cleared table never raises: the single
placed amount is pre-clamped to at most the limit. -/
lemma mart_place_no_raise (s : MState) (t : Table) (ht : t.bets = []) :
    (Martingale.place_bets blackOutcome s t).2.raised = false := by
  unfold Martingale.place_bets
  cases hs : s.stake with
  | none => rfl
  | some k =>
    have hle := bet_amount_le_limit s.multiplier t.limit k
    simp [Table.place_bet, Table.is_valid, ht, not_lt.mpr hle]

/-- A SevenReds `place_bets` on a cleared table never raises: it places
nothing or delegates to the Martingale sizing. -/
lemma seven_place_no_raise (s : SState) (t : Table) (ht : t.bets = []) :
    (SevenReds.place_bets blackOutcome s t).2.raised = false := by
  unfold SevenReds.place_bets
  split
  · exact mart_place_no_raise s.toM t ht
  · rfl

/-- A completed `Game.cycle` always hands back a cleared table. -/
lemma cycle_clears (P : PlayerOps σ) (bins : List (List Outcome)) (d : Nat)
    (s : σ) (t : Table) (r : σ × Table × Int × Nat)
    (h : cycleG P bins d s t = Except.ok r) : r.2.1.bets = [] := by
  unfold cycleG at h
  dsimp only at h
  by_cases hp : (if P.playing s then P.place_bets s t else (s, ⟨t, false⟩)).2.raised = true
  · rw [if_pos hp] at h; cases h
  · rw [if_neg hp] at h
    split at h
    · cases h
    · cases h; rfl

/-- C9: Martingale-family strategies never trigger `InvalidBet`: under the
per-round protocol (every completed cycle clears the table, so `place_bets`
always sees an empty bet list) the single bet they place is pre-clamped to
the table limit, so `place_bet` never raises for them. -/
theorem martingale_family_no_invalid_bet :
    (∀ (s : MState) (t : Table), t.bets = [] →
      (Martingale.place_bets blackOutcome s t).2.raised = false) ∧
    (∀ (s : SState) (t : Table), t.bets = [] →
      (SevenReds.place_bets blackOutcome s t).2.raised = false) ∧
    (∀ (σ : Type) (P : PlayerOps σ) (bins : List (List Outcome)) (d : Nat)
      (s : σ) (t : Table) (r : σ × Table × Int × Nat),
      cycleG P bins d s t = Except.ok r → r.2.1.bets = []) :=
  ⟨mart_place_no_raise, seven_place_no_raise,
    fun _ P bins d s t r h => cycle_clears P bins d s t r h⟩

/-- C9 witness: the no-raise facts at a concrete state and empty table,
and the cleared table of a concrete completed cycle. -/
theorem martingale_family_no_invalid_bet_witness :
    (Martingale.place_bets blackOutcome mart0 ⟨1000, []⟩).2.raised = false ∧
    (SevenReds.place_bets blackOutcome ⟨mart0, 7⟩ ⟨1000, []⟩).2.raised = false ∧
    ((⟨1000, []⟩ : Table)).bets = [] :=
  ⟨martingale_family_no_invalid_bet.1 mart0 ⟨1000, []⟩ rfl,
    martingale_family_no_invalid_bet.2.1 ⟨mart0, 7⟩ ⟨1000, []⟩ rfl,
    martingale_family_no_invalid_bet.2.2 BaseState p57Ops aBins 0 base0 ⟨1000, []⟩
      ({ base0 with rounds := Player.decRounds base0.rounds }, ⟨1000, []⟩, 0, 1) rfl⟩

lemma p57_cycle0 (s : BaseState) :
    cycleG p57Ops aBins 0 s ⟨1000, []⟩ =
      Except.ok ({ s with rounds := Player.decRounds s.rounds }, ⟨1000, []⟩, 0, 1) := rfl

lemma p57_step (n : Nat) (s : BaseState) (i : Nat) (stakes : List Int) (dur : Nat) :
    sessionLoop p57Ops aBins (fun _ => 0) (n + 1) s ⟨1000, []⟩ i stakes dur =
      sessionLoop p57Ops aBins (fun _ => 0) n { s with rounds := Player.decRounds s.rounds }
        ⟨1000, []⟩ (i + 1) (stakes ++ [s.stake.getD 0]) (dur + 1) := rfl

lemma p57_loop (fuel : Nat) : ∀ (s : BaseState) (i : Nat) (stakes : List Int) (dur : Nat),
    sessionLoop p57Ops aBins (fun _ => 0) fuel s ⟨1000, []⟩ i stakes dur = SessRes.fuelOut := by
  induction fuel with
  | zero => intro s i stakes dur; rfl
  | succ n ih =>
    intro s i stakes dur
    rw [p57_step]
    exact ih _ _ _ _

lemma mart_playing_spec (s : MState) (h : martOps.playing s = true) :
    ∃ r k, s.rounds = some r ∧ s.stake = some k ∧ 0 < r ∧ 0 < k := by
  have h' : Player.playingB s.rounds s.stake = true := h
  rcases hr : s.rounds with _ | r
  · rw [hr] at h'; simp [Player.playingB] at h'
  · rcases hk : s.stake with _ | k
    · rw [hr, hk] at h'; simp [Player.playingB] at h'
    · rw [hr, hk] at h'; simp [Player.playingB] at h'
      exact ⟨r, k, rfl, rfl, h'.1, h'.2⟩

lemma mart_place_bets_spec (s : MState) (t : Table) (k : Int) (ht : t.bets = [])
    (hk : s.stake = some k) :
    Martingale.place_bets blackOutcome s t =
      ({ s with stake := some (k - Martingale.bet_amount s.multiplier t.limit k) },
        ⟨⟨t.limit, [⟨Martingale.bet_amount s.multiplier t.limit k, blackOutcome⟩]⟩, false⟩) := by
  have hle := bet_amount_le_limit s.multiplier t.limit k
  unfold Martingale.place_bets
  rw [hk]
  unfold Table.place_bet Table.is_valid
  dsimp only
  rw [ht]
  simp [not_lt.mpr hle]

lemma decRounds_pos (r : Int) (h : r ≠ 0) : Player.decRounds (some r) = some (r - 1) := by
  simp [Player.decRounds, h]

lemma mart_winners_eq (s : MState) (w : List Outcome) :
    martOps.winners s w = { s with rounds := Player.decRounds s.rounds } := rfl

lemma resolve_single_mart (winning : List Outcome) (b : Bet) (hb : b.outcome.prison = false)
    (s : MState) :
    ∃ s1 v, resolveBets martOps winning [b] s = Except.ok (s1, [v]) ∧
      s1.rounds = s.rounds := by
  unfold resolveBets
  by_cases hm : winning.any (fun o => o.name == b.outcome.name) = true
  · rw [if_pos hm]
    exact ⟨_, _, rfl, rfl⟩
  · rw [if_neg hm]
    have hv : Player.lose_value b = Except.ok 0 := by simp [Player.lose_value, hb]
    have hl : martOps.lose s b = ({ s with multiplier := s.multiplier + 1 }, Except.ok 0) := by
      simp only [martOps]; rw [Martingale.lose, hv]
    rw [hl]
    exact ⟨_, _, rfl, rfl⟩

lemma mart_cycle (d : Nat) (s : MState) (t : Table) (r : Int) (ht : t.bets = [])
    (hr : s.rounds = some r) (hp : martOps.playing s = true) :
    ∃ s1 v c, cycleG martOps aBins d s t = Except.ok (s1, ⟨t.limit, []⟩, v, c) ∧
      s1.rounds = some (r - 1) := by
  obtain ⟨r0, k, hr0, hk, hrpos, hkpos⟩ := mart_playing_spec s hp
  rw [hr] at hr0
  injection hr0 with he
  subst he
  have hcond : (if martOps.playing s = true then martOps.place_bets s t
      else (s, ⟨t, false⟩)) = martOps.place_bets s t := by
    rw [hp]; rfl
  have hpb : martOps.place_bets s t =
      ({ s with stake := some (k - Martingale.bet_amount s.multiplier t.limit k) },
        ⟨⟨t.limit, [⟨Martingale.bet_amount s.multiplier t.limit k, blackOutcome⟩]⟩, false⟩) :=
    mart_place_bets_spec s t k ht hk
  obtain ⟨s3, v, hres, hrounds⟩ := resolve_single_mart (aBins.getD (d % 38) [])
    ⟨Martingale.bet_amount s.multiplier t.limit k, blackOutcome⟩ rfl
    { stake := some (k - Martingale.bet_amount s.multiplier t.limit k)
      rounds := Player.decRounds (some r)
      multiplier := s.multiplier }
  refine ⟨s3, [v].sum, 1, ?_, ?_⟩
  · unfold cycleG
    dsimp only
    rw [hcond, hpb]
    dsimp only
    rw [mart_winners_eq]
    dsimp only
    rw [hr]
    rw [hres]
    rfl
  · rw [hrounds]
    exact decRounds_pos r (by omega)

lemma sessionLoop_done (P : PlayerOps σ) (bins : List (List Outcome)) (stream : Nat → Nat)
    (fuel : Nat) (s : σ) (t : Table) (i : Nat) (stakes : List Int) (dur : Nat)
    (h : P.playing s = false) :
    sessionLoop P bins stream fuel s t i stakes dur = SessRes.ok dur stakes t i := by
  cases fuel <;> simp [sessionLoop, h]

lemma sessionLoop_step (P : PlayerOps σ) (bins : List (List Outcome)) (stream : Nat → Nat)
    (n : Nat) (s : σ) (t : Table) (i : Nat) (stakes : List Int) (dur : Nat)
    (s1 : σ) (t1 : Table) (v : Int) (c : Nat)
    (hp : P.playing s = true) (hc : cycleG P bins (stream i) s t = Except.ok (s1, t1, v, c)) :
    sessionLoop P bins stream (n + 1) s t i stakes dur =
      sessionLoop P bins stream n s1 t1 (i + 1) (stakes ++ [P.stake s1]) (dur + 1) := by
  simp [sessionLoop, hp, hc]

lemma le_foldl_max (l : List Int) : ∀ a : Int, a ≤ l.foldl max a := by
  induction l with
  | nil => intro a; simp
  | cons y ys ih =>
    intro a
    calc a ≤ max a y := le_max_left a y
    _ ≤ ys.foldl max (max a y) := ih (max a y)

lemma le_listMax_head (x : Int) (l : List Int) : x ≤ listMax (x :: l) :=
  le_foldl_max l x

lemma mart_session_loop (stream : Nat → Nat) (fuel : Nat) :
    ∀ (s : MState) (t : Table) (i : Nat) (stakes : List Int) (dur : Nat) (r : Int),
      s.rounds = some r → r.toNat ≤ fuel → t.bets = [] →
      ∃ d stks t1 i1, sessionLoop martOps aBins stream fuel s t i stakes dur =
          SessRes.ok d stks t1 i1 ∧ d ≤ dur + r.toNat ∧ t1.bets = [] ∧
          ∃ rest, stks = stakes ++ rest := by
  induction fuel with
  | zero =>
    intro s t i stakes dur r hr hle ht
    have hnp : martOps.playing s = false := by
      cases hb : martOps.playing s
      · rfl
      · obtain ⟨r0, k, hr0, _, hrpos, _⟩ := mart_playing_spec s hb
        rw [hr] at hr0
        injection hr0 with he
        omega
    refine ⟨dur, stakes, t, i, sessionLoop_done _ _ _ _ _ _ _ _ _ hnp, by omega, ht, [], by simp⟩
  | succ n ih =>
    intro s t i stakes dur r hr hle ht
    cases hb : martOps.playing s
    · refine ⟨dur, stakes, t, i, sessionLoop_done _ _ _ _ _ _ _ _ _ hb, by omega, ht, [], by simp⟩
    · obtain ⟨r0, k, hr0, hk, hrpos, hkpos⟩ := mart_playing_spec s hb
      rw [hr] at hr0
      injection hr0 with he
      subst he
      obtain ⟨s1, v, c, hc, hs1⟩ := mart_cycle (stream i) s t r ht hr hb
      obtain ⟨d, stks, t1, i1, hloop, hd, ht1, rest, hrest⟩ :=
        ih s1 ⟨t.limit, []⟩ (i + 1) (stakes ++ [martOps.stake s1]) (dur + 1) (r - 1)
          hs1 (by omega) rfl
      refine ⟨d, stks, t1, i1, ?_, by omega, ht1, [martOps.stake s1] ++ rest, ?_⟩
      · rw [sessionLoop_step martOps aBins stream n s t i stakes dur s1 ⟨t.limit, []⟩ v c hb hc]
        exact hloop
      · rw [hrest, List.append_assoc]

lemma gatherLoop_step (P : PlayerOps σ) (bins : List (List Outcome)) (stream : Nat → Nat)
    (s0 : σ) (k : Nat) (t : Table) (i : Nat) (ds : List Nat) (ms : List Int)
    (dur : Nat) (stakes : List Int) (t1 : Table) (i1 : Nat)
    (h : sessionG P bins stream s0 t i 251 = SessRes.ok dur stakes t1 i1) :
    gatherLoop P bins stream s0 (k + 1) t i ds ms =
      gatherLoop P bins stream s0 k t1 i1 (ds ++ [dur]) (ms ++ [listMax stakes]) := by
  simp [gatherLoop, h]

lemma mart_gather (stream : Nat → Nat) (k : Nat) :
    ∀ (t : Table) (i : Nat) (ds : List Nat) (ms : List Int), t.bets = [] →
      ∃ ds1 ms1, gatherLoop martOps aBins stream mart0 k t i ds ms =
          some (ds ++ ds1, ms ++ ms1) ∧
        ds1.length = k ∧ ds1.all (fun d => decide (d ≤ 250)) = true ∧
        ms1.length = k ∧ ms1.all (fun x => decide (100 ≤ x)) = true := by
  induction k with
  | zero =>
    intro t i ds ms ht
    exact ⟨[], [], by simp [gatherLoop], rfl, rfl, rfl, rfl⟩
  | succ n ih =>
    intro t i ds ms ht
    obtain ⟨d, stks, t1, i1, hloop, hd, ht1, rest, hrest⟩ :=
      mart_session_loop stream 251 mart0 t i [martOps.stake mart0] 0 250 rfl (by decide) ht
    have hsession : sessionG martOps aBins stream mart0 t i 251 = SessRes.ok d stks t1 i1 := hloop
    have hmax : 100 ≤ listMax stks := by
      rw [hrest]
      exact le_listMax_head 100 rest
    obtain ⟨ds1, ms1, hg, hl1, ha1, hl2, ha2⟩ := ih t1 i1 (ds ++ [d]) (ms ++ [listMax stks]) ht1
    refine ⟨[d] ++ ds1, [listMax stks] ++ ms1, ?_, ?_, ?_, ?_, ?_⟩
    · rw [gatherLoop_step martOps aBins stream mart0 n t i ds ms d stks t1 i1 hsession, hg,
        List.append_assoc, List.append_assoc]
    · simp [hl1]
    · simp only [List.all_append, ha1, Bool.and_true, List.all_cons, List.all_nil,
        Bool.and_true]
      exact decide_eq_true (by omega)
    · simp [hl2]
    · simp only [List.all_append, ha2, Bool.and_true, List.all_cons, List.all_nil,
        Bool.and_true]
      exact decide_eq_true hmax

/-- C1 counterexample: under the default configuration (stake 100, 250
rounds, table limit 1000, default wheel) a `Simulator.session` run on
`Passenger57` never leaves its while-loop, because `Passenger57.playing`
overrides the base predicate and always returns true; so `runBatch(50)`
on this player does not terminate, against the claim. -/
theorem passenger57_session_never_ends : p57SessionNeverEnds := by
  intro fuel
  exact p57_loop fuel base0 0 [p57Ops.stake base0] 0

/-- C1 amended: for a player with the inherited rounds/stake `playing`
predicate (here Martingale), every session terminates within the 250-round
cap - the rounds counter strictly decreases each cycle - and `runBatch(50)`
with the default configuration records, for every draw stream and table
limit, exactly 50 durations, each in [0, 250], and 50 maxima, each at
least the starting stake 100.  The claim fails only for Passenger57,
whose `playing` override never becomes false. -/
theorem martingale_sessions_terminate :
    (∀ (stream : Nat → Nat) (t : Table) (i : Nat), t.bets = [] →
      ∃ d stks t1 i1, sessionG martOps aBins stream mart0 t i 251 =
          SessRes.ok d stks t1 i1 ∧ d ≤ 250 ∧ 100 ≤ listMax stks) ∧
    (∀ (stream : Nat → Nat) (limit : Int),
      ∃ ds ms, gatherG martOps aBins stream mart0 50 ⟨limit, []⟩ = some (ds, ms) ∧
        ds.length = 50 ∧ ds.all (fun d => decide (d ≤ 250)) = true ∧
        ms.length = 50 ∧ ms.all (fun x => decide (100 ≤ x)) = true) := by
  constructor
  · intro stream t i ht
    obtain ⟨d, stks, t1, i1, hloop, hd, ht1, rest, hrest⟩ :=
      mart_session_loop stream 251 mart0 t i [martOps.stake mart0] 0 250 rfl (by decide) ht
    refine ⟨d, stks, t1, i1, hloop, by omega, ?_⟩
    rw [hrest]
    exact le_listMax_head 100 rest
  · intro stream limit
    obtain ⟨ds1, ms1, hg, h1, h2, h3, h4⟩ := mart_gather stream 50 ⟨limit, []⟩ 0 [] [] rfl
    exact ⟨ds1, ms1, by simpa [gatherG] using hg, h1, h2, h3, h4⟩

/-- C1 witness: a terminating Martingale session at the concrete
always-zero draw stream and table limit 1000. -/
theorem martingale_sessions_terminate_witness :
    ∃ d stks t1 i1, sessionG martOps aBins (fun _ => 0) mart0 ⟨1000, []⟩ 0 251 =
        SessRes.ok d stks t1 i1 ∧ d ≤ 250 ∧ 100 ≤ listMax stks :=
  martingale_sessions_terminate.1 (fun _ => 0) ⟨1000, []⟩ 0 rfl

lemma resolveShape_map (e : Except String (σ × List Int)) (v : Int) :
    resolveShape (e.map (fun q => (q.1, v :: q.2))) = resolveShape e := by
  cases e <;> rfl

lemma resolve_congr (P Q : PlayerOps σ)
    (hwin : ∀ s b, (P.win s b).1 = (Q.win s b).1)
    (hlose : ∀ s b, (P.lose s b).1 = (Q.lose s b).1 ∧
      exceptIsOk (P.lose s b).2 = exceptIsOk (Q.lose s b).2)
    (w : List Outcome) :
    ∀ (bets : List Bet) (s : σ),
      resolveShape (resolveBets P w bets s) = resolveShape (resolveBets Q w bets s) := by
  intro bets
  induction bets with
  | nil => intro s; rfl
  | cons b rest ih =>
    intro s
    unfold resolveBets
    by_cases hm : w.any (fun o => o.name == b.outcome.name) = true
    · rw [if_pos hm, if_pos hm]
      dsimp only
      rw [resolveShape_map, resolveShape_map, hwin s b]
      exact ih (Q.win s b).1
    · rw [if_neg hm, if_neg hm]
      dsimp only
      cases hP : (P.lose s b).2 with
      | error e =>
        cases hQ : (Q.lose s b).2 with
        | error e2 => rfl
        | ok v =>
          have := (hlose s b).2
          rw [hP, hQ] at this
          simp [exceptIsOk] at this
      | ok v =>
        cases hQ : (Q.lose s b).2 with
        | error e2 =>
          have := (hlose s b).2
          rw [hP, hQ] at this
          simp [exceptIsOk] at this
        | ok v2 =>
          rw [resolveShape_map, resolveShape_map, (hlose s b).1]
          exact ih (Q.lose s b).1

lemma cycle_congr (P Q : PlayerOps σ) (hplay : P.playing = Q.playing)
    (hpb : P.place_bets = Q.place_bets) (hwn : P.winners = Q.winners)
    (hwin : ∀ s b, (P.win s b).1 = (Q.win s b).1)
    (hlose : ∀ s b, (P.lose s b).1 = (Q.lose s b).1 ∧
      exceptIsOk (P.lose s b).2 = exceptIsOk (Q.lose s b).2)
    (bins : List (List Outcome)) (d : Nat) (s : σ) (t : Table) :
    cycleShape (cycleG P bins d s t) = cycleShape (cycleG Q bins d s t) := by
  unfold cycleG
  rw [hplay, hpb, hwn]
  dsimp only
  by_cases hraised : (if Q.playing s = true then Q.place_bets s t
      else (s, ⟨t, false⟩)).2.raised = true
  · rw [if_pos hraised, if_pos hraised]
  · rw [if_neg hraised, if_neg hraised]
    have hres := resolve_congr P Q hwin hlose (bins.getD (d % 38) [])
      ((if Q.playing s = true then Q.place_bets s t else (s, ⟨t, false⟩)).2.table).bets
      (Q.winners (if Q.playing s = true then Q.place_bets s t else (s, ⟨t, false⟩)).1
        (bins.getD (d % 38) []))
    cases hP : resolveBets P (bins.getD (d % 38) [])
        ((if Q.playing s = true then Q.place_bets s t else (s, ⟨t, false⟩)).2.table).bets
        (Q.winners (if Q.playing s = true then Q.place_bets s t else (s, ⟨t, false⟩)).1
          (bins.getD (d % 38) [])) with
    | error e =>
      rw [hP] at hres
      cases hQ : resolveBets Q (bins.getD (d % 38) [])
          ((if Q.playing s = true then Q.place_bets s t else (s, ⟨t, false⟩)).2.table).bets
          (Q.winners (if Q.playing s = true then Q.place_bets s t else (s, ⟨t, false⟩)).1
            (bins.getD (d % 38) [])) with
      | error e2 => rfl
      | ok p =>
        rw [hQ] at hres
        simp [resolveShape] at hres
    | ok p =>
      rw [hP] at hres
      cases hQ : resolveBets Q (bins.getD (d % 38) [])
          ((if Q.playing s = true then Q.place_bets s t else (s, ⟨t, false⟩)).2.table).bets
          (Q.winners (if Q.playing s = true then Q.place_bets s t else (s, ⟨t, false⟩)).1
            (bins.getD (d % 38) [])) with
      | error e2 =>
        rw [hQ] at hres
        simp [resolveShape] at hres
      | ok q =>
        rw [hQ] at hres
        obtain ⟨s3, vs⟩ := p
        obtain ⟨s4, vs2⟩ := q
        simp [resolveShape] at hres
        simp [cycleShape, hres]

lemma session_congr (P Q : PlayerOps σ) (hplay : P.playing = Q.playing)
    (hpb : P.place_bets = Q.place_bets) (hwn : P.winners = Q.winners)
    (hst : P.stake = Q.stake)
    (hwin : ∀ s b, (P.win s b).1 = (Q.win s b).1)
    (hlose : ∀ s b, (P.lose s b).1 = (Q.lose s b).1 ∧
      exceptIsOk (P.lose s b).2 = exceptIsOk (Q.lose s b).2)
    (bins : List (List Outcome)) (stream : Nat → Nat) (fuel : Nat) :
    ∀ (s : σ) (t : Table) (i : Nat) (stakes : List Int) (dur : Nat),
      sessionLoop P bins stream fuel s t i stakes dur =
        sessionLoop Q bins stream fuel s t i stakes dur := by
  induction fuel with
  | zero =>
    intro s t i stakes dur
    simp only [sessionLoop, hplay]
  | succ n ih =>
    intro s t i stakes dur
    have hcy := cycle_congr P Q hplay hpb hwn hwin hlose bins (stream i) s t
    by_cases hp : Q.playing s = true
    · cases hP : cycleG P bins (stream i) s t with
      | error e =>
        rw [hP] at hcy
        cases hQ : cycleG Q bins (stream i) s t with
        | error e2 => simp [sessionLoop, hplay, hp, hP, hQ]
        | ok q =>
          rw [hQ] at hcy
          simp [cycleShape] at hcy
      | ok p =>
        rw [hP] at hcy
        cases hQ : cycleG Q bins (stream i) s t with
        | error e2 =>
          rw [hQ] at hcy
          simp [cycleShape] at hcy
        | ok q =>
          rw [hQ] at hcy
          obtain ⟨s1, t1, v, c⟩ := p
          obtain ⟨s2, t2, v2, c2⟩ := q
          simp only [cycleShape, Option.some.injEq, Prod.mk.injEq] at hcy
          obtain ⟨hs, ht⟩ := hcy
          subst hs
          subst ht
          simp only [sessionLoop, hplay, hp, hP, hQ, hst]
          exact ih s1 t1 (i + 1) (stakes ++ [Q.stake s1]) (dur + 1)
    · have hp' : Q.playing s = false := by
        cases hb : Q.playing s
        · rfl
        · exact absurd hb hp
      simp [sessionLoop, hplay, hp']

/-- C10: the values returned by win/lose are discarded by the session
loop, and the default win/lose never touch the player state. -/
theorem session_ignores_payout_values (P Q : PlayerOps σ)
    (hplay : P.playing = Q.playing) (hpb : P.place_bets = Q.place_bets)
    (hwn : P.winners = Q.winners) (hst : P.stake = Q.stake)
    (hwin : ∀ s b, (P.win s b).1 = (Q.win s b).1)
    (hlose : ∀ s b, (P.lose s b).1 = (Q.lose s b).1 ∧
      exceptIsOk (P.lose s b).2 = exceptIsOk (Q.lose s b).2) :
    (∀ (bins : List (List Outcome)) (stream : Nat → Nat) (s0 : σ) (t : Table)
      (i fuel : Nat),
      sessionG P bins stream s0 t i fuel = sessionG Q bins stream s0 t i fuel) ∧
    (∀ (s : BaseState) (b : Bet),
      (Player.win_state s b).1 = s ∧ (Player.lose_state s b).1 = s) := by
  constructor
  · intro bins stream s0 t i fuel
    unfold sessionG
    rw [hst]
    exact session_congr P Q hplay hpb hwn hst hwin hlose bins stream fuel s0 t i
      [Q.stake s0] 0
  · intro s b
    exact ⟨rfl, rfl⟩

/-- C10 witness: a Martingale session is unchanged when the win values are
shifted, and the default win leaves a concrete state untouched. -/
theorem session_ignores_payout_values_witness :
    (sessionG martOps aBins (fun _ => 0) mart0 ⟨1000, []⟩ 0 5 =
      sessionG martOpsShifted aBins (fun _ => 0) mart0 ⟨1000, []⟩ 0 5) ∧
    (Player.win_state base0 ⟨10, blackOutcome⟩).1 = base0 :=
  ⟨(session_ignores_payout_values martOps martOpsShifted rfl rfl rfl rfl
      (fun _ _ => rfl) (fun _ _ => ⟨rfl, rfl⟩)).1 aBins (fun _ => 0) mart0 ⟨1000, []⟩ 0 5,
    ((session_ignores_payout_values martOps martOpsShifted rfl rfl rfl rfl
      (fun _ _ => rfl) (fun _ _ => ⟨rfl, rfl⟩)).2 base0 ⟨10, blackOutcome⟩).1⟩
